import Mathlib

/-!
Shallow embedding of `SprintReport/sprint_report.py` and proofs about it.

Python strings are modelled as `String`, Python `None` as `Option.none`,
Python dictionaries as association lists (`List (String × String)`, first
match wins, keys kept unique on insertion), and Python exceptions as
`Except String`.  Each definition is translated from the corresponding
function of the source file; the few external collaborators (the jira
client, the `natsort` library, the `re` module) are modelled by explicit
parameters or by direct implementations of their documented behaviour.
-/

namespace SprintReport

/-! ### Python string helpers -/

/-- One printed string per `print` call; Python truthiness of a string is
`s ≠ ""`.  Whitespace for `str.split` (no separator argument). -/
def pyWS (c : Char) : Bool := c.isWhitespace

/-- `name.split(maxsplit=1)`: skip leading whitespace, take the first
whitespace-free word, skip the following whitespace, and keep the (verbatim)
remainder as the second element when it is non-empty. -/
def splitMaxsplit1 (s : String) : List String :=
  let cs := s.data.dropWhile pyWS
  match cs with
  | [] => []
  | _ :: _ =>
    let w := cs.takeWhile (fun c => !pyWS c)
    let rest := (cs.dropWhile (fun c => !pyWS c)).dropWhile pyWS
    if rest.isEmpty then [String.mk w] else [String.mk w, String.mk rest]

/-- `sep.join(parts)` for Python lists of strings. -/
def pyJoin (sep : String) : List String → String
  | [] => ""
  | [x] => x
  | x :: y :: xs => x ++ sep ++ pyJoin sep (y :: xs)

/-- The first whitespace-separated token of a string (`name.split()[0]`),
or `""` when the string has no token. -/
def firstTok (s : String) : String :=
  match splitMaxsplit1 s with
  | [] => ""
  | w :: _ => w

/-! ### `get_bug_id` and the `LP#` link rewrite (`re.search` / `re.sub`) -/

/-- `re.search(r"LP#(\d+)", summary)`: scan the character list left to
right; at the first position where `LP#` is followed by at least one digit,
return the maximal digit run.  Returns `none` when no position matches. -/
def findBugId : List Char → Option (List Char)
  | [] => none
  | c :: cs =>
    if c = 'L' then
      match cs with
      | 'P' :: '#' :: rest =>
        let ds := rest.takeWhile Char.isDigit
        if ds.isEmpty then findBugId cs else some ds
      | _ => findBugId cs
    else findBugId cs

/-- `get_bug_id(summary)`: the digits of the first `LP#<digits>` match, or
`""` when there is none. -/
def get_bug_id (summary : String) : String :=
  match findBugId summary.data with
  | some ds => String.mk ds
  | none => ""

/-- Replace every non-overlapping occurrence of `pat` in `s` by `repl`,
scanning left to right (the behaviour of `re.sub` with a literal pattern).
`fuel` bounds the recursion; `fuel = s.length` is always enough for the
non-empty patterns this program builds. -/
def replaceAllAux (pat repl : List Char) : Nat → List Char → List Char
  | 0, s => s
  | fuel + 1, s =>
    if pat.isPrefixOf s then repl ++ replaceAllAux pat repl fuel (s.drop pat.length)
    else
      match s with
      | [] => []
      | c :: cs => c :: replaceAllAux pat repl fuel cs

def replaceAll (pat repl s : String) : String :=
  String.mk (replaceAllAux pat.data repl.data s.data.length s.data)

/-! ### The `JiraIssue` dataclass -/

structure JiraIssue where
  key : String
  category : String
  status : String
  parent : String
  summary : String
  epic : String
  epic_name : String := "No epic"
  assignee : Option String := none
  assignee_short : Option String := none
  deriving Repr, DecidableEq

/-- `key_to_md(key)`; the global `jira_server` is passed explicitly. -/
def key_to_md (server key : String) : String :=
  "[" ++ key ++ "](" ++ server ++ "/browse/" ++ key ++ ")"

/-- `JiraIssue.summary_with_bug_link`. -/
def summary_with_bug_link (i : JiraIssue) : String :=
  let bug_id := get_bug_id i.summary
  if bug_id != "" then
    let bug := "LP#" ++ bug_id
    let link := "https://pad.lv/" ++ bug_id
    replaceAll bug ("[" ++ bug ++ "](" ++ link ++ ")") i.summary
  else i.summary

/-- `JiraIssue.update_assignee(assignee_mapping)` (the mutation returns the
updated record). -/
def update_assignee (i : JiraIssue) (assignee_mapping : List (String × String)) : JiraIssue :=
  match i.assignee with
  | some a => if a != "" then { i with assignee_short := assignee_mapping.lookup a } else i
  | none => i

/-- `JiraIssue.render_assignee`: `self.__assignee_short__ or self.assignee or ""`. -/
def render_assignee (i : JiraIssue) : String :=
  match i.assignee_short with
  | some s => if s != "" then s else (match i.assignee with
      | some a => if a != "" then a else ""
      | none => "")
  | none => match i.assignee with
      | some a => if a != "" then a else ""
      | none => ""

/-- `"LP#" in summary` (Python substring containment). -/
def containsLP : List Char → Bool
  | [] => false
  | c :: cs =>
    if c = 'L' then
      match cs with
      | 'P' :: '#' :: _ => true
      | _ => containsLP cs
    else containsLP cs

/-- `JiraIssue.render_issue`. -/
def render_issue (server : String) (i : JiraIssue) : String :=
  if containsLP i.summary.data then
    pyJoin " : " (List.filter (fun s => s != "")
      [" - " ++ summary_with_bug_link i, render_assignee i])
  else
    pyJoin " : " (List.filter (fun s => s != "")
      [" - [" ++ i.status ++ "] " ++ i.category,
       key_to_md server i.key,
       i.summary,
       render_assignee i])

/-! ### `find_unique_assignee_names`

Python raises exceptions inside this function, so the embedding returns
`Except String`.  The three stages of the source are kept separate:
`first_names` (line 146), `surname_initials` (lines 147-151) and the final
dict comprehension (lines 156-172).  Counters are modelled by `List.count`
over the list of the set's elements. -/

/-- `to_name(name)` (line 140-142): `names[0]` raises `IndexError` on a
string with no token; otherwise the pair (first word, verbatim remainder or
`""`). -/
def to_name (name : String) : Except String (String × String) :=
  match splitMaxsplit1 name with
  | [] => .error "IndexError: list index out of range"
  | [f] => .ok (f, "")
  | f :: r :: _ => .ok (f, r)

/-- `name.split()[0]` (line 146): `IndexError` on a token-free string. -/
def firstName (name : String) : Except String String :=
  match splitMaxsplit1 name with
  | [] => .error "IndexError: list index out of range"
  | f :: _ => .ok f

/-- One element of the `surname_initials` list (lines 147-151):
`(names[0], names[1][0])`, where indexing `""` raises `IndexError`. -/
def surnameInitial (name : String) : Except String (String × Char) :=
  match to_name name with
  | .error e => .error e
  | .ok (f, s) =>
    match s.data with
    | [] => .error "IndexError: string index out of range"
    | c :: _ => .ok (f, c)

/-- The dict comprehension of lines 156-172.  A name whose first name is
not unique reaches the expression
`surname_inital_count[(first_names, surname_inital_count[0])]`, whose key
contains the list `first_names`; hashing it raises `TypeError`. -/
def buildUnique (first_names : List String) :
    List String → Except String (List (String × String))
  | [] => .ok []
  | name :: rest =>
    match to_name name with
    | .error e => .error e
    | .ok (f, s) =>
      if f != "" && s != "" then
        if first_names.count f = 1 then
          match buildUnique first_names rest with
          | .error e => .error e
          | .ok tail => .ok ((name, f) :: tail)
        else .error "TypeError: unhashable type: list"
      else buildUnique first_names rest

/-- The set `{issue.assignee for issue in issues if issue.assignee}`,
as a duplicate-free list. -/
def all_assignees (issues : List JiraIssue) : List String :=
  (issues.filterMap (fun i => match i.assignee with
    | some a => if a != "" then some a else none
    | none => none)).dedup

/-- The list comprehension of line 146, propagating the `IndexError`. -/
def firstNames : List String → Except String (List String)
  | [] => .ok []
  | n :: rest =>
    match firstName n with
    | .error e => .error e
    | .ok f =>
      match firstNames rest with
      | .error e => .error e
      | .ok fs => .ok (f :: fs)

/-- The list comprehension of lines 147-151, propagating the `IndexError`. -/
def surnameInitials : List String → Except String (List (String × Char))
  | [] => .ok []
  | n :: rest =>
    match surnameInitial n with
    | .error e => .error e
    | .ok p =>
      match surnameInitials rest with
      | .error e => .error e
      | .ok ps => .ok (p :: ps)

/-- `find_unique_assignee_names(issues, collapse_surname)` (lines 126-174). -/
def find_unique_assignee_names (issues : List JiraIssue)
    (collapse_surname : Bool := true) : Except String (List (String × String)) :=
  let names := all_assignees issues
  if !collapse_surname then .ok (names.map (fun n => (n, n)))
  else
    match firstNames names with
    | .error e => .error e
    | .ok first_names =>
      match surnameInitials names with
      | .error e => .error e
      | .ok _ => buildUnique first_names names

/-! ### Natural ordering (the `natsort` library)

`natsorted` with a tuple key compares, for every component string, the list
of chunks obtained by cutting the string into maximal digit runs (compared
as numbers) and maximal non-digit runs (compared as strings), with an empty
string chunk prepended when the string starts with a digit.  Chunk lists
are compared lexicographically, as are the key tuples. -/

inductive NatChunk where
  | str : List Char → NatChunk
  | num : Nat → NatChunk
  deriving Repr, DecidableEq

/-- Three-way comparison on `Nat`. -/
def cmpNat (a b : Nat) : Ordering :=
  if a < b then .lt else if b < a then .gt else .eq

/-- Characters compare by code point. -/
def cmpChar (a b : Char) : Ordering := cmpNat a.toNat b.toNat

/-- Lexicographic comparison of lists, given a comparison on elements. -/
def listCmp (cmp : α → α → Ordering) : List α → List α → Ordering
  | [], [] => .eq
  | [], _ :: _ => .lt
  | _ :: _, [] => .gt
  | a :: as, b :: bs =>
    match cmp a b with
    | .eq => listCmp cmp as bs
    | o => o

/-- Comparison of chunks.  On keys produced by `natKey` the two sides of a
comparison always carry the same constructor at the same position, so the
cross cases are arbitrary but fixed. -/
def cmpChunk : NatChunk → NatChunk → Ordering
  | .str a, .str b => listCmp cmpChar a b
  | .num a, .num b => cmpNat a b
  | .str _, .num _ => .lt
  | .num _, .str _ => .gt

/-- Decimal value of a digit run. -/
def digitsToNat (ds : List Char) : Nat :=
  ds.foldl (fun n c => n * 10 + (c.toNat - 48)) 0

/-- Cut a character list into maximal digit / non-digit runs. -/
def natChunksAux : Nat → List Char → List NatChunk
  | 0, _ => []
  | _, [] => []
  | fuel + 1, c :: cs =>
    if c.isDigit then
      .num (digitsToNat ((c :: cs).takeWhile Char.isDigit)) ::
        natChunksAux fuel ((c :: cs).dropWhile Char.isDigit)
    else
      .str ((c :: cs).takeWhile (fun x => !x.isDigit)) ::
        natChunksAux fuel ((c :: cs).dropWhile (fun x => !x.isDigit))

/-- The `natsort` key of one string. -/
def natKey (s : String) : List NatChunk :=
  match natChunksAux s.data.length s.data with
  | [] => [.str []]
  | .num n :: rest => .str [] :: .num n :: rest
  | chunks => chunks

/-- Comparison of two natural-order keys. -/
def keyCmp : List NatChunk → List NatChunk → Ordering := listCmp cmpChunk

/-- The tuple key `(i.parent, i.epic, i.key)` of line 187, as a list of
natural-order keys compared lexicographically. -/
def issueKeys (i : JiraIssue) : List (List NatChunk) :=
  [natKey i.parent, natKey i.epic, natKey i.key]

/-- Natural-order comparison of two issues by `(parent, epic, key)`. -/
def cmpIssue (a b : JiraIssue) : Ordering :=
  listCmp keyCmp (issueKeys a) (issueKeys b)

/-- `natsorted(issues, key=lambda i: (i.parent, i.epic, i.key))`: a stable
sort by the natural-order triple (Python's sort is stable, as is
`List.insertionSort`). -/
def natsorted (issues : List JiraIssue) : List JiraIssue :=
  List.insertionSort (fun a b => cmpIssue a b ≠ .gt) issues

/-- `natsorted` on plain strings, for the key examples. -/
def natsortedStr (l : List String) : List String :=
  List.insertionSort (fun a b => keyCmp (natKey a) (natKey b) ≠ .gt) l

/-! ### `print_jira_report` (lines 178-204)

Each `print` call contributes one string to the output list.  The parent
title lookup `jira_api.issue(parent).fields.summary` is an external call,
modelled by the function parameter `parentSummary`.  Line 197 subscripts
the sorted issue *list* with a `JiraIssue` (`issues[issue]["epic_name"]`),
which raises `TypeError`; the embedding returns the corresponding error. -/

/-- Lines 189-192: the parent-heading check, returning the new parent
cursor and the lines printed. -/
def parentUpdate (server : String) (parentSummary : String → String)
    (parent : String) (issue : JiraIssue) : String × List String :=
  if issue.parent != parent then
    (issue.parent,
     ["\n## " ++ key_to_md server issue.parent ++ ": " ++
      parentSummary issue.parent])
  else (parent, [])

/-- Lines 193-199: the epic-heading check.  Reaching line 197 subscripts
the sorted issue list with a `JiraIssue`, raising `TypeError`. -/
def epicUpdate (parent epic : String) (issue : JiraIssue) :
    Except String (String × List String) :=
  if issue.epic != epic then
    if issue.epic != "" then
      if issue.epic != parent then
        .error "TypeError: list indices must be integers or slices, not JiraIssue"
      else .ok (issue.epic, [])
    else .ok (issue.epic, ["\n### Issues without an epic"])
  else .ok (epic, [])

/-- One iteration of the `for issue in issues` loop; the state is
(current parent cursor, current epic cursor, output so far). -/
def reportStep (server : String) (parentSummary : String → String)
    (assignee_names : List (String × String))
    (st : String × String × List String) (issue : JiraIssue) :
    Except String (String × String × List String) :=
  let (parent, epic, out) := st
  let (parent, parentLines) := parentUpdate server parentSummary parent issue
  match epicUpdate parent epic issue with
  | .error e => .error e
  | .ok (epic, epicLines) =>
    let issue :=
      if assignee_names.isEmpty then issue else update_assignee issue assignee_names
    .ok (parent, epic, out ++ (parentLines ++ epicLines ++ [render_issue server issue]))

/-- The `for issue in issues` loop (lines 188-204). -/
def reportLoop (server : String) (parentSummary : String → String)
    (assignee_names : List (String × String)) :
    (String × String × List String) → List JiraIssue →
    Except String (String × String × List String)
  | st, [] => .ok st
  | st, i :: rest =>
    match reportStep server parentSummary assignee_names st i with
    | .error e => .error e
    | .ok st' => reportLoop server parentSummary assignee_names st' rest

/-- `print_jira_report(jira_api, project, issues, assignee_names)`; the
global `sprint` and `jira_server` are passed explicitly. -/
def print_jira_report (server : String) (parentSummary : String → String)
    (project sprint : String) (issues : List JiraIssue)
    (assignee_names : List (String × String)) : Except String (List String) :=
  if issues.isEmpty then .ok []
  else
    let header := "# " ++ project ++ " " ++ sprint ++ " report"
    match reportLoop server parentSummary assignee_names
      ("", "", [header]) (natsorted issues) with
    | .error e => .error e
    | .ok (_, _, out) => .ok out

/-- The summary line printed by `main` (lines 240-242). -/
def found_line (issues : List JiraIssue) : String :=
  "Found " ++ toString issues.length ++ " issue" ++
    (if 1 < issues.length then "s" else "") ++ " in JIRA\n"

/-- The printing done by `main` (lines 240-244): the `Found ...` line,
then the report. -/
def main_output (server : String) (parentSummary : String → String)
    (project sprint : String) (issues : List JiraIssue)
    (assignee_names : List (String × String)) : Except String (List String) :=
  match print_jira_report server parentSummary project sprint issues assignee_names with
  | .ok body => .ok (found_line issues :: body)
  | .error e => .error e

/-! ### `find_issue_in_jira_sprint` (lines 77-124)

The jira client is modelled by its observable behaviour: `search_issues`
returns page `k` of the paginated query (`startAt = 50 * k`), and
`jira_api.issue(e).fields.summary` either yields a summary or raises
`JIRAError` (`none`).  Besides the issues, the embedding returns the list
of epic ids passed to `jira_api.issue` in each processed batch (the
resolution attempts) and the number of `search_issues` calls. -/

structure RawIssue where
  key : String
  issuetype : String
  status : String
  summary : String
  parent : Option String
  epic_link : String
  assignee : Option String
  deriving Repr, DecidableEq

structure JiraClient where
  pages : List (List RawIssue)
  epicSummary : String → Option String

/-- The `for issue in issues` loop of lines 100-122: thread the per-batch
`epics` cache, record every resolution attempt. -/
def processBatch (epicSummary : String → Option String) :
    List RawIssue → List (String × String) → List String →
    (List JiraIssue × List (String × String) × List String)
  | [], epics, calls => ([], epics, calls)
  | r :: rest, epics, calls =>
    let (epics, calls, ename) :=
      match epics.lookup r.epic_link with
      | some v => (epics, calls, v)
      | none =>
        let v := (epicSummary r.epic_link).getD "No epic"
        ((r.epic_link, v) :: epics, calls ++ [r.epic_link], v)
    let issue : JiraIssue :=
      { key := r.key, category := r.issuetype, status := r.status,
        epic := r.epic_link, epic_name := ename,
        parent := r.parent.getD "", summary := r.summary,
        assignee := r.assignee }
    let (more, epics', calls') := processBatch epicSummary rest epics calls
    (issue :: more, epics', calls')

/-- The `while True` loop of lines 87-122: one search call per iteration,
stop at the first empty page, and reset the `epics` cache (line 98) at the
start of every batch. -/
def fetchPages (epicSummary : String → Option String) :
    List (List RawIssue) → (List JiraIssue × List (List String) × Nat)
  | [] => ([], [], 1)
  | page :: rest =>
    if page.isEmpty then ([], [], 1)
    else
      let (issues, _, calls) := processBatch epicSummary page [] []
      let (more, traces, n) := fetchPages epicSummary rest
      (issues ++ more, calls :: traces, n + 1)

/-- `find_issue_in_jira_sprint(jira_api, project, sprint)`.  A falsy client
or project returns the empty dict `{}` (observably an empty collection)
without any remote call. -/
def find_issue_in_jira_sprint (client : Option JiraClient)
    (project : String) (_sprint : String) :
    List JiraIssue × List (List String) × Nat :=
  match client with
  | none => ([], [], 0)
  | some c =>
    if project = "" then ([], [], 0)
    else fetchPages c.epicSummary c.pages

/-! ### Module-level mutable state

The module's global variables (`jira_server`, `sprint`); the body of
`find_unique_assignee_names` neither reads nor writes them, which the
state-passing wrapper makes explicit. -/

structure GlobalState where
  jira_server : String
  sprint : String
  deriving Repr, DecidableEq

/-- `find_unique_assignee_names` run against the module state: the result
and the state after the call. -/
def find_unique_assignee_names_run (g : GlobalState) (issues : List JiraIssue)
    (collapse_surname : Bool) :
    Except String (List (String × String)) × GlobalState :=
  (find_unique_assignee_names issues collapse_surname, g)

/-! ### The specification's reading of `render_issue` (for the rewrite
claim): the same branches, written as the spec phrases them — the summary
with the bug reference rewritten, then the optional `" : "`-joined
assignee, and the bracketed form joining only the non-empty parts. -/

def render_issue_spec (server : String) (i : JiraIssue) : String :=
  if containsLP i.summary.data then
    " - " ++ summary_with_bug_link i ++
      (if render_assignee i = "" then "" else " : " ++ render_assignee i)
  else
    " - [" ++ i.status ++ "] " ++ i.category ++ " : " ++ key_to_md server i.key ++
      (if i.summary = "" then "" else " : " ++ i.summary) ++
      (if render_assignee i = "" then "" else " : " ++ render_assignee i)

/-! ### Laws of the natural-order comparison -/

theorem cmpNat_eq_iff (a b : Nat) : cmpNat a b = .eq ↔ a = b := by
  unfold cmpNat
  by_cases h1 : a < b
  · simp only [h1, if_true]
    constructor
    · intro hx; cases hx
    · intro hx; omega
  · by_cases h2 : b < a
    · simp only [h1, h2, if_false, if_true]
      constructor
      · intro hx; cases hx
      · intro hx; omega
    · simp only [h1, h2, if_false]
      constructor
      · intro _; omega
      · intro _; trivial

theorem cmpNat_swap (a b : Nat) : cmpNat a b = (cmpNat b a).swap := by
  unfold cmpNat
  rcases Nat.lt_trichotomy a b with h | h | h
  · simp [h, Nat.lt_asymm h, Ordering.swap]
  · subst h
    simp [Nat.lt_irrefl, Ordering.swap]
  · simp [h, Nat.lt_asymm h, Ordering.swap]

theorem cmpNat_lt_trans {a b c : Nat} (h₁ : cmpNat a b = .lt) (h₂ : cmpNat b c = .lt) :
    cmpNat a c = .lt := by
  unfold cmpNat at *
  have hab : a < b := by
    by_cases h : a < b
    · exact h
    · simp only [h, if_false] at h₁
      split at h₁ <;> cases h₁
  have hbc : b < c := by
    by_cases h : b < c
    · exact h
    · simp only [h, if_false] at h₂
      split at h₂ <;> cases h₂
  simp [Nat.lt_trans hab hbc]

theorem cmpChar_eq_iff (a b : Char) : cmpChar a b = .eq ↔ a = b := by
  unfold cmpChar
  rw [cmpNat_eq_iff]
  constructor
  · intro h
    exact Char.ext (UInt32.ext h)
  · intro h
    rw [h]

theorem cmpChar_swap (a b : Char) : cmpChar a b = (cmpChar b a).swap :=
  cmpNat_swap _ _

theorem cmpChar_lt_trans {a b c : Char} (h₁ : cmpChar a b = .lt) (h₂ : cmpChar b c = .lt) :
    cmpChar a c = .lt :=
  cmpNat_lt_trans h₁ h₂

theorem listCmp_cons (cmp : α → α → Ordering) (a b : α) (as bs : List α) :
    listCmp cmp (a :: as) (b :: bs) =
      match cmp a b with
      | .eq => listCmp cmp as bs
      | o => o := rfl

theorem listCmp_eq_iff {cmp : α → α → Ordering}
    (hcmp : ∀ a b, cmp a b = .eq ↔ a = b) :
    ∀ l₁ l₂, listCmp cmp l₁ l₂ = .eq ↔ l₁ = l₂
  | [], [] => by simp [listCmp]
  | [], _ :: _ => by simp [listCmp]
  | _ :: _, [] => by simp [listCmp]
  | a :: as, b :: bs => by
    rw [listCmp_cons]
    cases h : cmp a b with
    | eq =>
      rw [listCmp_eq_iff hcmp as bs]
      have hab : a = b := (hcmp a b).mp h
      subst hab
      simp
    | lt =>
      have : ¬a = b := fun he => by simp [he, (hcmp b b).mpr rfl] at h
      simp [this]
    | gt =>
      have : ¬a = b := fun he => by simp [he, (hcmp b b).mpr rfl] at h
      simp [this]

theorem listCmp_swap {cmp : α → α → Ordering}
    (hcmp : ∀ a b, cmp a b = (cmp b a).swap) :
    ∀ l₁ l₂, listCmp cmp l₁ l₂ = (listCmp cmp l₂ l₁).swap
  | [], [] => by simp [listCmp, Ordering.swap]
  | [], _ :: _ => by simp [listCmp, Ordering.swap]
  | _ :: _, [] => by simp [listCmp, Ordering.swap]
  | a :: as, b :: bs => by
    rw [listCmp_cons, listCmp_cons, hcmp a b]
    cases h : cmp b a <;> simp [Ordering.swap, listCmp_swap hcmp as bs]

theorem listCmp_lt_trans {cmp : α → α → Ordering}
    (heq : ∀ a b, cmp a b = .eq ↔ a = b)
    (htr : ∀ a b c, cmp a b = .lt → cmp b c = .lt → cmp a c = .lt) :
    ∀ {l₁ l₂ l₃}, listCmp cmp l₁ l₂ = .lt → listCmp cmp l₂ l₃ = .lt →
      listCmp cmp l₁ l₃ = .lt
  | [], [], _, h₁, _ => by simp [listCmp] at h₁
  | [], _ :: _, [], _, h₂ => by simp [listCmp] at h₂
  | [], _ :: _, _ :: _, _, _ => by simp [listCmp]
  | _ :: _, [], _, h₁, _ => by simp [listCmp] at h₁
  | _ :: _, _ :: _, [], _, h₂ => by simp [listCmp] at h₂
  | a :: as, b :: bs, c :: cs, h₁, h₂ => by
    rw [listCmp_cons] at h₁ h₂ ⊢
    cases hab : cmp a b with
    | gt => simp [hab] at h₁
    | eq =>
      have : a = b := (heq a b).mp hab
      subst this
      rw [hab] at h₁
      cases hac : cmp a c with
      | lt => rfl
      | eq => rw [hac] at h₂; exact listCmp_lt_trans heq htr h₁ h₂
      | gt => rw [hac] at h₂; simp at h₂
    | lt =>
      cases hbc : cmp b c with
      | lt => simp [htr _ _ _ hab hbc]
      | eq =>
        have : b = c := (heq b c).mp hbc
        subst this
        simp [hab]
      | gt => rw [hbc] at h₂; simp at h₂

theorem cmpChunk_eq_iff (a b : NatChunk) : cmpChunk a b = .eq ↔ a = b := by
  cases a <;> cases b <;>
    simp [cmpChunk, listCmp_eq_iff cmpChar_eq_iff, cmpNat_eq_iff]

theorem cmpChunk_swap (a b : NatChunk) : cmpChunk a b = (cmpChunk b a).swap := by
  cases a with
  | str as =>
    cases b with
    | str bs => exact listCmp_swap cmpChar_swap as bs
    | num bn => rfl
  | num an =>
    cases b with
    | str bs => rfl
    | num bn => exact cmpNat_swap an bn

theorem cmpChunk_lt_trans :
    ∀ a b c : NatChunk, cmpChunk a b = .lt → cmpChunk b c = .lt → cmpChunk a c = .lt
  | .str _, .str _, .str _, h₁, h₂ =>
    listCmp_lt_trans cmpChar_eq_iff (fun _ _ _ h h' => cmpChar_lt_trans h h') h₁ h₂
  | .str _, .str _, .num _, _, _ => rfl
  | .str _, .num _, .str _, _, h₂ => nomatch h₂
  | .str _, .num _, .num _, _, _ => rfl
  | .num _, .str _, _, h₁, _ => nomatch h₁
  | .num _, .num _, .str _, _, h₂ => nomatch h₂
  | .num _, .num _, .num _, h₁, h₂ => cmpNat_lt_trans h₁ h₂

theorem keyCmp_eq_iff (a b : List NatChunk) : keyCmp a b = .eq ↔ a = b :=
  listCmp_eq_iff cmpChunk_eq_iff a b

theorem keyCmp_swap (a b : List NatChunk) : keyCmp a b = (keyCmp b a).swap :=
  listCmp_swap cmpChunk_swap a b

theorem keyCmp_lt_trans {a b c : List NatChunk}
    (h₁ : keyCmp a b = .lt) (h₂ : keyCmp b c = .lt) : keyCmp a c = .lt :=
  listCmp_lt_trans cmpChunk_eq_iff cmpChunk_lt_trans h₁ h₂

theorem cmpIssue_eq_iff (a b : JiraIssue) :
    cmpIssue a b = .eq ↔ issueKeys a = issueKeys b :=
  listCmp_eq_iff keyCmp_eq_iff _ _

theorem cmpIssue_swap (a b : JiraIssue) : cmpIssue a b = (cmpIssue b a).swap :=
  listCmp_swap keyCmp_swap _ _

theorem cmpIssue_lt_trans {a b c : JiraIssue}
    (h₁ : cmpIssue a b = .lt) (h₂ : cmpIssue b c = .lt) : cmpIssue a c = .lt :=
  listCmp_lt_trans keyCmp_eq_iff (fun _ _ _ h h' => keyCmp_lt_trans h h') h₁ h₂

/-- The issue comparison depends only on the sort keys. -/
theorem cmpIssue_congr_left {a b : JiraIssue} (h : issueKeys a = issueKeys b)
    (c : JiraIssue) : cmpIssue a c = cmpIssue b c := by
  unfold cmpIssue
  rw [h]

/-- Totality of the natural order on issues. -/
theorem cmpIssue_total (a b : JiraIssue) :
    cmpIssue a b ≠ .gt ∨ cmpIssue b a ≠ .gt := by
  cases h : cmpIssue a b with
  | lt => left; simp [h]
  | eq => left; simp [h]
  | gt =>
    right
    rw [cmpIssue_swap] at h
    cases h2 : cmpIssue b a <;> simp [h2, Ordering.swap] at h ⊢

/-- Transitivity of the natural order on issues. -/
theorem cmpIssue_le_trans {a b c : JiraIssue}
    (h₁ : cmpIssue a b ≠ .gt) (h₂ : cmpIssue b c ≠ .gt) : cmpIssue a c ≠ .gt := by
  cases hab : cmpIssue a b with
  | gt => exact absurd hab h₁
  | eq =>
    rw [cmpIssue_congr_left ((cmpIssue_eq_iff a b).mp hab) c]
    exact h₂
  | lt =>
    cases hbc : cmpIssue b c with
    | gt => exact absurd hbc h₂
    | eq =>
      have hk : issueKeys b = issueKeys c := (cmpIssue_eq_iff b c).mp hbc
      rw [show cmpIssue a c = cmpIssue a b from by unfold cmpIssue; rw [hk]]
      simp [hab]
    | lt => simp [cmpIssue_lt_trans hab hbc]

/-! ### Facts about `find_unique_assignee_names` -/

theorem firstName_ok {n f : String} (h : firstName n = .ok f) : f = firstTok n := by
  unfold firstName at h
  unfold firstTok
  cases hs : splitMaxsplit1 n with
  | nil => rw [hs] at h; cases h
  | cons w rest => rw [hs] at h; cases h; rfl

theorem firstNames_ok : ∀ {l fs}, firstNames l = .ok fs → fs = l.map firstTok
  | [], fs, h => by
    unfold firstNames at h
    cases h
    rfl
  | n :: rest, fs, h => by
    unfold firstNames at h
    cases hf : firstName n with
    | error e => rw [hf] at h; cases h
    | ok f =>
      rw [hf] at h
      cases hr : firstNames rest with
      | error e => rw [hr] at h; cases h
      | ok gs =>
        rw [hr] at h
        cases h
        simp [firstNames_ok hr, firstName_ok hf]

theorem to_name_ok {n f s : String} (h : to_name n = .ok (f, s)) : f = firstTok n := by
  unfold to_name at h
  unfold firstTok
  cases hs : splitMaxsplit1 n with
  | nil => rw [hs] at h; cases h
  | cons w rest =>
    rw [hs] at h
    cases rest with
    | nil => cases h; rfl
    | cons r rest2 => cases h; rfl

/-- Every entry produced by the dict comprehension maps a member of the
input list to its first name, and that first name occurs exactly once in
`first_names`. -/
theorem buildUnique_mem {fs : List String} :
    ∀ {l m}, buildUnique fs l = .ok m →
      ∀ e ∈ m, e.1 ∈ l ∧ e.2 = firstTok e.1 ∧ fs.count e.2 = 1
  | [], m, h => by
    unfold buildUnique at h
    cases h
    intro e he
    cases he
  | name :: rest, m, h => by
    unfold buildUnique at h
    cases ht : to_name name with
    | error e => rw [ht] at h; cases h
    | ok p =>
      rw [ht] at h
      obtain ⟨f, s⟩ := p
      dsimp only at h
      by_cases hcond : (f != "" && s != "") = true
      · rw [if_pos hcond] at h
        by_cases hcount : fs.count f = 1
        · rw [if_pos hcount] at h
          cases hrec : buildUnique fs rest with
          | error e => rw [hrec] at h; cases h
          | ok tail =>
            rw [hrec] at h
            cases h
            intro e he
            cases he with
            | head =>
              refine ⟨List.mem_cons_self _ _, ?_, ?_⟩
              · exact to_name_ok ht
              · exact hcount
            | tail _ htail =>
              obtain ⟨h1, h2, h3⟩ := buildUnique_mem hrec e htail
              exact ⟨List.mem_cons_of_mem _ h1, h2, h3⟩
        · rw [if_neg hcount] at h
          cases h
      · rw [if_neg hcond] at h
        intro e he
        obtain ⟨h1, h2, h3⟩ := buildUnique_mem h e he
        exact ⟨List.mem_cons_of_mem _ h1, h2, h3⟩

/-- The keys of the produced mapping form a sublist of the input list. -/
theorem buildUnique_keys_sublist {fs : List String} :
    ∀ {l m}, buildUnique fs l = .ok m → List.Sublist (m.map Prod.fst) l
  | [], m, h => by
    unfold buildUnique at h
    cases h
    simp
  | name :: rest, m, h => by
    unfold buildUnique at h
    cases ht : to_name name with
    | error e => rw [ht] at h; cases h
    | ok p =>
      rw [ht] at h
      obtain ⟨f, s⟩ := p
      dsimp only at h
      by_cases hcond : (f != "" && s != "") = true
      · rw [if_pos hcond] at h
        by_cases hcount : fs.count f = 1
        · rw [if_pos hcount] at h
          cases hrec : buildUnique fs rest with
          | error e => rw [hrec] at h; cases h
          | ok tail =>
            rw [hrec] at h
            cases h
            simpa using (buildUnique_keys_sublist hrec).cons₂ name
        · rw [if_neg hcount] at h
          cases h
      · rw [if_neg hcond] at h
        exact (buildUnique_keys_sublist h).cons name

/-- A duplicate-free list with two distinct members satisfying `p` has
`countP p` at least two. -/
theorem two_le_countP {p : α → Bool} {x y : α} :
    ∀ {L : List α}, L.Nodup → x ∈ L → y ∈ L → x ≠ y → p x = true → p y = true →
      2 ≤ L.countP p
  | [], _, hx, _, _, _, _ => by cases hx
  | a :: L, hnd, hx, hy, hxy, hpx, hpy => by
    rw [List.countP_cons]
    rcases List.mem_cons.mp hx with rfl | hx'
    · have hy' : y ∈ L := by
        rcases List.mem_cons.mp hy with rfl | hy'
        · exact absurd rfl hxy
        · exact hy'
      have h1 : 0 < L.countP p := List.countP_pos_iff.mpr ⟨y, hy', hpy⟩
      rw [if_pos hpx]
      omega
    · rcases List.mem_cons.mp hy with rfl | hy'
      · have h1 : 0 < L.countP p := List.countP_pos_iff.mpr ⟨x, hx', hpx⟩
        rw [if_pos hpy]
        omega
      · have h1 := two_le_countP (List.Nodup.of_cons hnd) hx' hy' hxy hpx hpy
        omega

/-- On a duplicate-free input whose first-name list is the counted one, a
successful run of the dict comprehension yields pairwise-distinct values. -/
theorem buildUnique_values_nodup {L : List String} (hnd : L.Nodup) :
    ∀ {l m}, buildUnique (L.map firstTok) l = .ok m → List.Sublist l L →
      (m.map Prod.snd).Nodup
  | [], m, h, _ => by
    unfold buildUnique at h
    cases h
    simp
  | name :: rest, m, h, hsub => by
    have hrest : List.Sublist rest L := (List.sublist_cons_self name rest).trans hsub
    unfold buildUnique at h
    cases ht : to_name name with
    | error e => rw [ht] at h; cases h
    | ok p =>
      rw [ht] at h
      obtain ⟨f, s⟩ := p
      dsimp only at h
      by_cases hcond : (f != "" && s != "") = true
      · rw [if_pos hcond] at h
        by_cases hcount : (L.map firstTok).count f = 1
        · rw [if_pos hcount] at h
          cases hrec : buildUnique (L.map firstTok) rest with
          | error e => rw [hrec] at h; cases h
          | ok tail =>
            rw [hrec] at h
            cases h
            rw [List.map_cons, List.nodup_cons]
            refine ⟨?_, buildUnique_values_nodup hnd hrec hrest⟩
            intro hfmem
            obtain ⟨e, hemem, heeq⟩ := List.mem_map.mp hfmem
            obtain ⟨he1, he2, _⟩ := buildUnique_mem hrec e hemem
            have hef : firstTok e.1 = f := by rw [← he2, heeq]
            have hname : f = firstTok name := to_name_ok ht
            have hnmem : name ∈ L := hsub.subset (List.mem_cons_self _ _)
            have hemem2 : e.1 ∈ L := hrest.subset he1
            have hne : name ≠ e.1 := by
              intro hcontra
              have : (name :: rest).Nodup := hsub.nodup hnd
              rw [List.nodup_cons] at this
              exact this.1 (hcontra ▸ he1)
            have hcount2 : 2 ≤ (L.map firstTok).countP (fun z => z == f) := by
              have := two_le_countP (p := fun z => firstTok z == f)
                (x := name) (y := e.1) hnd hnmem hemem2 hne
                (by simp [hname]) (by simp [hef])
              calc 2 ≤ L.countP (fun z => firstTok z == f) := this
                _ = (L.map firstTok).countP (fun z => z == f) := by
                    rw [List.countP_map]
                    rfl
            rw [List.count_eq_countP] at hcount
            omega
        · rw [if_neg hcount] at h
          cases h
      · rw [if_neg hcond] at h
        exact buildUnique_values_nodup hnd h hrest

/-! ### Facts about the fetch loop's epic cache -/

theorem lookup_mem {k v : String} :
    ∀ {l : List (String × String)}, l.lookup k = some v → (k, v) ∈ l
  | [], h => by cases h
  | (a, b) :: l, h => by
    unfold List.lookup at h
    cases hbeq : (k == a) with
    | true =>
      rw [hbeq] at h
      dsimp only at h
      cases h
      have : k = a := eq_of_beq hbeq
      subst this
      exact List.mem_cons_self _ _
    | false =>
      rw [hbeq] at h
      dsimp only at h
      exact List.mem_cons_of_mem _ (lookup_mem h)

theorem lookup_cons_self {k v : String} {l : List (String × String)} :
    ((k, v) :: l).lookup k = some v := by
  unfold List.lookup
  rw [beq_self_eq_true]

theorem lookup_cons_ne {x k v : String} {l : List (String × String)}
    (h : x ≠ k) : ((k, v) :: l).lookup x = l.lookup x := by
  have hbeq : (x == k) = false := beq_eq_false_iff_ne.mpr h
  show (match x == k with
       | true => some v
       | false => List.lookup x l) = List.lookup x l
  rw [hbeq]

/-- Invariants of the per-batch loop: the recorded resolution attempts stay
duplicate-free (each attempted id is cached and skipped afterwards), every
cache entry is the resolution result with the `"No epic"` fallback, and
every produced issue carries that resolved name for its epic. -/
theorem processBatch_inv (f : String → Option String) :
    ∀ (rs : List RawIssue) (epics : List (String × String)) (calls : List String),
      calls.Nodup →
      (∀ e ∈ calls, ((epics.lookup e)).isSome) →
      (∀ p ∈ epics, p.2 = (f p.1).getD "No epic") →
      (processBatch f rs epics calls).2.2.Nodup ∧
      (∀ e ∈ (processBatch f rs epics calls).2.2,
        (((processBatch f rs epics calls).2.1.lookup e)).isSome) ∧
      (∀ p ∈ (processBatch f rs epics calls).2.1, p.2 = (f p.1).getD "No epic") ∧
      (∀ i ∈ (processBatch f rs epics calls).1,
        i.epic_name = (f i.epic).getD "No epic")
  | [], epics, calls, h1, h2, h3 => by
    refine ⟨h1, h2, h3, ?_⟩
    intro i hi
    cases hi
  | r :: rest, epics, calls, h1, h2, h3 => by
    unfold processBatch
    cases hlk : epics.lookup r.epic_link with
    | some v =>
      dsimp only
      have hrec := processBatch_inv f rest epics calls h1 h2 h3
      rcases hres : processBatch f rest epics calls with ⟨more, epics2, calls2⟩
      rw [hres] at hrec
      dsimp only at hrec ⊢
      refine ⟨hrec.1, hrec.2.1, hrec.2.2.1, ?_⟩
      intro i hi
      cases hi with
      | head =>
        have hv : v = (f r.epic_link).getD "No epic" := h3 _ (lookup_mem hlk)
        exact hv
      | tail _ ht => exact hrec.2.2.2 i ht
    | none =>
      dsimp only
      have hnotin : r.epic_link ∉ calls := by
        intro hin
        have := h2 _ hin
        rw [hlk] at this
        cases this
      have h1' : (calls ++ [r.epic_link]).Nodup := by
        rw [List.nodup_append]
        exact ⟨h1, List.nodup_singleton _, by
          intro x hx hx2
          rcases List.mem_singleton.mp hx2 with rfl
          exact hnotin hx⟩
      have h2' : ∀ e ∈ calls ++ [r.epic_link],
          ((((r.epic_link, (f r.epic_link).getD "No epic") :: epics).lookup e)).isSome := by
        intro e he
        rcases List.mem_append.mp he with he1 | he2
        · have hne : e ≠ r.epic_link := fun hc => hnotin (hc ▸ he1)
          rw [lookup_cons_ne hne]
          exact h2 e he1
        · rcases List.mem_singleton.mp he2 with rfl
          rw [lookup_cons_self]
          rfl
      have h3' : ∀ p ∈ (r.epic_link, (f r.epic_link).getD "No epic") :: epics,
          p.2 = (f p.1).getD "No epic" := by
        intro p hp
        cases hp with
        | head => rfl
        | tail _ ht => exact h3 p ht
      have hrec := processBatch_inv f rest _ _ h1' h2' h3'
      rcases hres : processBatch f rest
        ((r.epic_link, (f r.epic_link).getD "No epic") :: epics)
        (calls ++ [r.epic_link]) with ⟨more, epics2, calls2⟩
      rw [hres] at hrec
      dsimp only at hrec ⊢
      refine ⟨hrec.1, hrec.2.1, hrec.2.2.1, ?_⟩
      intro i hi
      cases hi with
      | head => rfl
      | tail _ ht => exact hrec.2.2.2 i ht

/-- Per-batch view of the whole run: every batch's resolution-attempt list
is duplicate-free, and every fetched issue's `epic_name` is the resolved
title or the sentinel. -/
theorem fetchPages_inv (f : String → Option String) :
    ∀ pages : List (List RawIssue),
      (∀ t ∈ (fetchPages f pages).2.1, t.Nodup) ∧
      (∀ i ∈ (fetchPages f pages).1, i.epic_name = (f i.epic).getD "No epic")
  | [] => by
    refine ⟨?_, ?_⟩ <;> intro x hx <;> cases hx
  | page :: rest => by
    unfold fetchPages
    by_cases hp : page.isEmpty = true
    · rw [if_pos hp]
      refine ⟨?_, ?_⟩ <;> intro x hx <;> cases hx
    · rw [if_neg hp]
      dsimp only
      have hbatch := processBatch_inv f page [] []
        (List.nodup_nil) (by intro e he; cases he) (by intro p hp2; cases hp2)
      have hrec := fetchPages_inv f rest
      rcases hres : processBatch f page [] [] with ⟨issues1, epics1, calls1⟩
      rcases hres2 : fetchPages f rest with ⟨more, traces, n⟩
      rw [hres] at hbatch
      rw [hres2] at hrec
      dsimp only at hbatch hrec ⊢
      constructor
      · intro t ht
        cases ht with
        | head => exact hbatch.1
        | tail _ ht2 => exact hrec.1 t ht2
      · intro i hi
        rcases List.mem_append.mp hi with hi1 | hi2
        · exact hbatch.2.2.2 i hi1
        · exact hrec.2 i hi2

/-! ### Facts about the report loop's output -/

theorem reportStep_out {server : String} {ps : String → String}
    {an : List (String × String)} {st : String × String × List String}
    {issue : JiraIssue} {st' : String × String × List String}
    (h : reportStep server ps an st issue = .ok st') :
    ∃ suf, st'.2.2 = st.2.2 ++ suf := by
  obtain ⟨p, ep, out⟩ := st
  unfold reportStep at h
  dsimp only at h
  rcases hP : parentUpdate server ps p issue with ⟨par, plines⟩
  rw [hP] at h
  dsimp only at h
  cases hE : epicUpdate par ep issue with
  | error e => rw [hE] at h; cases h
  | ok pr =>
    rw [hE] at h
    obtain ⟨e', elines⟩ := pr
    dsimp only at h
    cases h
    exact ⟨_, rfl⟩

theorem reportLoop_out {server : String} {ps : String → String}
    {an : List (String × String)} :
    ∀ {l : List JiraIssue} {st st' : String × String × List String},
      reportLoop server ps an st l = .ok st' → ∃ suf, st'.2.2 = st.2.2 ++ suf
  | [], st, st', h => by
    unfold reportLoop at h
    cases h
    exact ⟨[], (List.append_nil _).symm⟩
  | i :: rest, st, st', h => by
    unfold reportLoop at h
    cases hs : reportStep server ps an st i with
    | error e => rw [hs] at h; cases h
    | ok st1 =>
      rw [hs] at h
      obtain ⟨suf1, hsuf1⟩ := reportStep_out hs
      obtain ⟨suf2, hsuf2⟩ := reportLoop_out h
      exact ⟨suf1 ++ suf2, by rw [hsuf2, hsuf1, List.append_assoc]⟩

/-! ### Facts about `render_issue` -/

theorem str_eq_empty_iff {a : String} : a = "" ↔ a.data = [] := by
  constructor
  · intro h
    rw [h]
  · intro h
    apply String.ext
    rw [h]

theorem append_ne_empty_left {a b : String} (h : a ≠ "") : a ++ b ≠ "" := by
  intro he
  rw [str_eq_empty_iff, String.data_append, List.append_eq_nil] at he
  exact h (str_eq_empty_iff.mpr he.1)

theorem pyJoin_one (sep a : String) : pyJoin sep [a] = a := rfl

theorem pyJoin_two (sep a b : String) : pyJoin sep [a, b] = a ++ sep ++ b := rfl

theorem pyJoin_three (sep a b c : String) :
    pyJoin sep [a, b, c] = a ++ sep ++ (b ++ sep ++ c) := rfl

theorem pyJoin_four (sep a b c d : String) :
    pyJoin sep [a, b, c, d] = a ++ sep ++ (b ++ sep ++ (c ++ sep ++ d)) := rfl

/-- `render_issue` computes exactly the branch structure the specification
describes: the `" - "` bug-link line optionally followed by the assignee,
or the bracketed status/category line joining only the non-empty parts. -/
theorem render_issue_eq_spec (server : String) (i : JiraIssue) :
    render_issue server i = render_issue_spec server i := by
  unfold render_issue render_issue_spec
  by_cases hlp : containsLP i.summary.data = true
  · rw [if_pos hlp, if_pos hlp]
    have hA : (" - " ++ summary_with_bug_link i) ≠ "" :=
      append_ne_empty_left (by decide)
    have hAb : ((" - " ++ summary_with_bug_link i) != "") = true := bne_iff_ne.mpr hA
    by_cases hra : render_assignee i = ""
    · have hrab : (render_assignee i != "") = false := by
        rw [hra]
        rfl
      rw [List.filter_cons, List.filter_cons, if_pos hAb, if_neg (by rw [hrab]; intro h; cases h),
        List.filter_nil, pyJoin_one, if_pos hra]
      apply String.ext
      simp
    · have hrab : (render_assignee i != "") = true := bne_iff_ne.mpr hra
      rw [List.filter_cons, List.filter_cons, if_pos hAb, if_pos hrab,
        List.filter_nil, pyJoin_two, if_neg hra]
      apply String.ext
      simp
  · rw [if_neg hlp, if_neg hlp]
    have hB : (" - [" ++ i.status ++ "] " ++ i.category) ≠ "" :=
      append_ne_empty_left (append_ne_empty_left (append_ne_empty_left (by decide)))
    have hBb : ((" - [" ++ i.status ++ "] " ++ i.category) != "") = true := bne_iff_ne.mpr hB
    have hK : key_to_md server i.key ≠ "" := by
      unfold key_to_md
      have k0 : ("[" : String) ≠ "" := by decide
      have k1 : "[" ++ i.key ≠ "" := append_ne_empty_left k0
      have k2 : "[" ++ i.key ++ "](" ≠ "" := append_ne_empty_left k1
      have k3 : "[" ++ i.key ++ "](" ++ server ≠ "" := append_ne_empty_left k2
      have k4 : "[" ++ i.key ++ "](" ++ server ++ "/browse/" ≠ "" := append_ne_empty_left k3
      have k5 : "[" ++ i.key ++ "](" ++ server ++ "/browse/" ++ i.key ≠ "" :=
        append_ne_empty_left k4
      exact append_ne_empty_left k5
    have hKb : (key_to_md server i.key != "") = true := bne_iff_ne.mpr hK
    rw [List.filter_cons, List.filter_cons, if_pos hBb, if_pos hKb]
    by_cases hs : i.summary = ""
    · have hsb : (i.summary != "") = false := by
        rw [hs]
        rfl
      rw [List.filter_cons, if_neg (by rw [hsb]; intro h; cases h), if_pos hs]
      by_cases hra : render_assignee i = ""
      · have hrab : (render_assignee i != "") = false := by
          rw [hra]
          rfl
        rw [List.filter_cons, if_neg (by rw [hrab]; intro h; cases h),
          List.filter_nil, pyJoin_two, if_pos hra]
        apply String.ext
        simp
      · have hrab : (render_assignee i != "") = true := bne_iff_ne.mpr hra
        rw [List.filter_cons, if_pos hrab, List.filter_nil, pyJoin_three, if_neg hra]
        apply String.ext
        simp
    · have hsb : (i.summary != "") = true := bne_iff_ne.mpr hs
      rw [List.filter_cons, if_pos hsb, if_neg hs]
      by_cases hra : render_assignee i = ""
      · have hrab : (render_assignee i != "") = false := by
          rw [hra]
          rfl
        rw [List.filter_cons, if_neg (by rw [hrab]; intro h; cases h),
          List.filter_nil, pyJoin_three, if_pos hra]
        apply String.ext
        simp
      · have hrab : (render_assignee i != "") = true := bne_iff_ne.mpr hra
        rw [List.filter_cons, if_pos hrab, List.filter_nil, pyJoin_four, if_neg hra]
        apply String.ext
        simp

/-! ### Concrete fixtures used by the claim theorems -/

/-- An issue whose only relevant field is its assignee. -/
def issueAssignedTo (key a : String) : JiraIssue :=
  { key := key, category := "Task", status := "Done", parent := "",
    summary := "Work item", epic := "", assignee := some a }

/-- The unfolding of `find_unique_assignee_names` at `collapse_surname = true`. -/
theorem find_unique_true_eq (issues : List JiraIssue) :
    find_unique_assignee_names issues true =
      match firstNames (all_assignees issues) with
      | .error e => .error e
      | .ok first_names =>
        match surnameInitials (all_assignees issues) with
        | .error e => .error e
        | .ok _ => buildUnique first_names (all_assignees issues) := rfl

/-- Issue under a parent with no epic. -/
def childNoEpic : JiraIssue :=
  { key := "K-2", category := "Task", status := "Done", parent := "P-1",
    summary := "first", epic := "" }

/-- Issue under the same parent linked to an epic. -/
def childWithEpic : JiraIssue :=
  { key := "K-1", category := "Task", status := "Done", parent := "P-1",
    summary := "second", epic := "EP-1", epic_name := "Epic one" }

/-- A parentless, epicless issue whose summary has no `LP#` reference. -/
def plainIssue : JiraIssue :=
  { key := "K-8", category := "Task", status := "Done", parent := "",
    summary := "Fix things", epic := "" }

/-- Summary containing the substring `LP#` with no digits after it. -/
def lpNoDigitsIssue : JiraIssue :=
  { key := "K-1", category := "Bug", status := "Done", parent := "",
    summary := "Fix LP# soon", epic := "" }

/-- Summary with an embedded `LP#<digits>` bug reference. -/
def lpBugIssue : JiraIssue :=
  { key := "K-1", category := "Bug", status := "Done", parent := "",
    summary := "Fix crash LP#12345 on startup", epic := "" }

/-- A run of 51 issues that all reference epic `E1`: a full first batch of
50 and a second batch with the remaining one. -/
def twoPageClient : JiraClient :=
  { pages :=
      [List.replicate 50
        { key := "K-1", issuetype := "Task", status := "Done", summary := "s1",
          parent := none, epic_link := "E1", assignee := none },
       [{ key := "K-51", issuetype := "Task", status := "Done", summary := "s2",
          parent := some "P-1", epic_link := "E1", assignee := some "Maria Silva" }]],
    epicSummary := fun k => if k = "E1" then some "Epic One" else none }

/-- One page containing three issues over two epic ids, all unresolvable. -/
def failingEpicPages : List (List RawIssue) :=
  [[{ key := "K-1", issuetype := "Task", status := "Done", summary := "s1",
      parent := none, epic_link := "E1", assignee := none },
    { key := "K-2", issuetype := "Task", status := "Done", summary := "s2",
      parent := some "P-1", epic_link := "E1", assignee := none },
    { key := "K-3", issuetype := "Task", status := "Done", summary := "s3",
      parent := none, epic_link := "E2", assignee := none }]]

/-! ### The claims -/

/-- C1: the claim states the three-form shortening algorithm (given name
when its count is one, else given name plus surname initial when that pair
is unique, else the full name).  The code instead crashes as soon as a
given name repeats among names that have surnames: the pair-uniqueness
check subscripts the `Counter` with `(first_names, surname_inital_count[0])`,
whose first component is a `list`, and hashing it raises `TypeError`.  On
`{"Maria Silva", "Maria Costa"}` the claim expects `"Maria S."` and
`"Maria C."`; the code raises. -/
theorem C1_shorten_typeerror_on_repeated_given_name :
    find_unique_assignee_names
      [issueAssignedTo "K-1" "Maria Silva", issueAssignedTo "K-2" "Maria Costa"] true =
      .error "TypeError: unhashable type: list" := rfl

/-- C2: whenever `find_unique_assignee_names` produces a mapping, its
values are pairwise distinct — no two distinct input names collapse to the
same alias.  (A mapping is produced exactly when every assignee name has at
least two tokens and all given names are distinct; each name then maps to
its given name.) -/
theorem C2_shorten_values_pairwise_distinct (issues : List JiraIssue)
    (m : List (String × String))
    (h : find_unique_assignee_names issues true = .ok m) :
    (m.map Prod.snd).Nodup := by
  rw [find_unique_true_eq] at h
  cases hfn : firstNames (all_assignees issues) with
  | error e => rw [hfn] at h; cases h
  | ok fs =>
    rw [hfn] at h
    cases hsn : surnameInitials (all_assignees issues) with
    | error e => rw [hsn] at h; cases h
    | ok ps =>
      rw [hsn] at h
      dsimp only at h
      have hfs : fs = (all_assignees issues).map firstTok := firstNames_ok hfn
      rw [hfs] at h
      exact buildUnique_values_nodup (List.nodup_dedup _) h (List.Sublist.refl _)

/-- C2 witness: a concrete input on which the mapping is produced, with
pairwise-distinct values. -/
theorem C2_shorten_values_pairwise_distinct_witness :
    ([("Maria Silva", "Maria"), ("John Smith", "John")].map Prod.snd).Nodup :=
  C2_shorten_values_pairwise_distinct
    [issueAssignedTo "K-1" "Maria Silva", issueAssignedTo "K-2" "John Smith"] _ rfl

/-- C3: the claim expects one parent heading followed by two distinct epic
headings (one being "Issues without an epic").  On two issues with the same
parent `P-1` and epics `""` and `EP-1`, the code sorts the empty epic
first, skips the "Issues without an epic" heading (the epic cursor starts
at `""`, equal to the issue's epic), and then crashes at line 197 with
`TypeError` when it reaches the non-empty epic: `issues[issue]["epic_name"]`
subscripts the sorted issue list with a `JiraIssue`. -/
theorem C3_report_typeerror_on_epic_heading :
    print_jira_report "https://jira.example.com" (fun _ => "Parent title")
      "PRJ" "Sprint 1" [childWithEpic, childNoEpic] [] =
      .error "TypeError: list indices must be integers or slices, not JiraIssue" := rfl

/-- C4 counterexample: the epic cache is reset at the start of every batch
(line 98 sits inside the `while` loop), so one run over two batches that
both reference epic `E1` resolves `E1` once per batch — twice in the run —
refuting "fetched at most once per run". -/
theorem C4_counterexample_epic_refetched_across_batches :
    (find_issue_in_jira_sprint (some twoPageClient) "PRJ" "Sprint 1").2.1 =
      [["E1"], ["E1"]] ∧
    ¬ ((find_issue_in_jira_sprint (some twoPageClient) "PRJ" "Sprint 1").2.1.flatten.count
        "E1" ≤ 1) := by
  constructor
  · rfl
  · decide

/-- C4 (amended): within each 50-issue batch the title of each distinct
epic id is resolved at most once — failed resolutions are cached for the
rest of the batch as well — and resolution failure is non-fatal: every
fetched issue's `epic_name` is the resolved title, or the sentinel
`"No epic"` when resolution fails.  The cache does not persist across
batches. -/
theorem C4_amended_epic_cache_per_batch (f : String → Option String)
    (pages : List (List RawIssue)) (project sprint : String) :
    (∀ t ∈ (find_issue_in_jira_sprint (some ⟨pages, f⟩) project sprint).2.1,
      t.Nodup) ∧
    (∀ i ∈ (find_issue_in_jira_sprint (some ⟨pages, f⟩) project sprint).1,
      i.epic_name = (f i.epic).getD "No epic") := by
  unfold find_issue_in_jira_sprint
  dsimp only
  by_cases hp : project = ""
  · rw [if_pos hp]
    constructor <;> intro x hx <;> cases hx
  · rw [if_neg hp]
    exact fetchPages_inv f pages

/-- C4 witness: concrete discharge of the membership hypotheses — the
single batch resolves each of `E1`, `E2` once, and a fetched issue carries
the sentinel after a failed resolution. -/
theorem C4_amended_epic_cache_per_batch_witness :
    (["E1", "E2"] : List String).Nodup := by
  refine (C4_amended_epic_cache_per_batch (fun _ => none) failingEpicPages
    "PRJ" "Sprint 1").1 ["E1", "E2"] ?_
  decide

/-- C5 counterexample: the rendering branch tests `"LP#" in summary`, not a
full `LP#<digits>` match.  `"Fix LP# soon"` has no `LP#<digits>` substring,
so the claim requires the bracketed `[status] category : key : summary`
form, but the code renders the short bug-link form with the summary
unchanged. -/
theorem C5_counterexample_lp_without_digits :
    get_bug_id "Fix LP# soon" = "" ∧
    render_issue "https://jira.example.com" lpNoDigitsIssue = " - Fix LP# soon" ∧
    render_issue "https://jira.example.com" lpNoDigitsIssue ≠
      " - [Done] Bug : [K-1](https://jira.example.com/browse/K-1) : Fix LP# soon" := by
  refine ⟨rfl, rfl, ?_⟩
  decide

/-- C5 (amended): the short form is taken if and only if the summary
contains the substring `"LP#"`; the line is then `" - "` plus the summary
with the first `LP#<digits>` match (when one exists) rewritten in place to
a Markdown link `[LP#<digits>](https://pad.lv/<digits>)` — with no digits
the summary is unchanged — optionally joined with `" : "` and the assignee
display; otherwise the bracketed form joins only the non-empty parts. -/
theorem C5_amended_render_issue_branches :
    (∀ (server : String) (i : JiraIssue),
      render_issue server i = render_issue_spec server i) ∧
    summary_with_bug_link lpBugIssue =
      "Fix crash [LP#12345](https://pad.lv/12345) on startup" ∧
    render_issue "https://jira.example.com" lpBugIssue =
      " - Fix crash [LP#12345](https://pad.lv/12345) on startup" :=
  ⟨render_issue_eq_spec, rfl, rfl⟩

/-- C6: the claim promises that a single-word name never crashes the
shortening and appears in the mapping.  The code builds `surname_initials`
with `names[1][0]`, and for `"Madonna"` the surname is `""`, so indexing
raises `IndexError` (and even without it, the comprehension's
`(surname := names[1])` filter would drop the name from the mapping). -/
theorem C6_shorten_indexerror_on_single_word_name :
    find_unique_assignee_names [issueAssignedTo "K-1" "Madonna"] true =
      .error "IndexError: string index out of range" := rfl

/-- C7: the report sorts by the tuple `(parent, epic, key)` under natural
ordering — `natsorted` (the sort applied at line 187, used by
`print_jira_report`) permutes the issues into a sequence sorted by the
lexicographic natural-order comparison of that triple, numeric runs
comparing by value: `"ISSUE-9"` sorts before `"ISSUE-10"`, and
`["ISSUE-2", "ISSUE-10", "ISSUE-1"]` sorts to
`["ISSUE-1", "ISSUE-2", "ISSUE-10"]`. -/
theorem C7_natural_order_sort :
    (∀ issues : List JiraIssue,
      List.Perm (natsorted issues) issues ∧
      List.Sorted (fun a b => cmpIssue a b ≠ .gt) (natsorted issues)) ∧
    natsortedStr ["ISSUE-2", "ISSUE-10", "ISSUE-1"] =
      ["ISSUE-1", "ISSUE-2", "ISSUE-10"] ∧
    keyCmp (natKey "ISSUE-9") (natKey "ISSUE-10") = .lt := by
  refine ⟨?_, rfl, rfl⟩
  intro issues
  constructor
  · exact List.perm_insertionSort _ issues
  · have htot : IsTotal JiraIssue (fun a b => cmpIssue a b ≠ .gt) := ⟨cmpIssue_total⟩
    have htrans : IsTrans JiraIssue (fun a b => cmpIssue a b ≠ .gt) :=
      ⟨fun _ _ _ => cmpIssue_le_trans⟩
    exact List.sorted_insertionSort _ issues

/-- C8 counterexample: `main` prints `"Found N issue(s) in JIRA"` (lines
240-242) before calling `print_jira_report`, which prints the `"# ..."`
header — so the run's output begins with the count line, not the header
line the claim puts first. -/
theorem C8_counterexample_count_line_precedes_header :
    main_output "S" (fun _ => "PT") "PRJ" "S1" [plainIssue] [] =
      .ok ["Found 1 issue in JIRA\n", "# PRJ S1 report",
           " - [Done] Task : [K-8](S/browse/K-8) : Fix things"] ∧
    ("Found 1 issue in JIRA\n" : String) ≠ "# PRJ S1 report" := by
  refine ⟨rfl, ?_⟩
  decide

/-- C8 (amended): on every run whose report succeeds, the output begins
with the summary count line `"Found N issue(s) in JIRA"`, followed — when
at least one issue was found — by the header line
`"# <project> <sprint> report"`, and both precede the grouped body. -/
theorem C8_amended_count_line_then_header (server : String)
    (ps : String → String) (project sprint : String)
    (issues : List JiraIssue) (an : List (String × String))
    (body : List String)
    (hok : print_jira_report server ps project sprint issues an = .ok body)
    (hne : issues ≠ []) :
    main_output server ps project sprint issues an =
      .ok (found_line issues :: body) ∧
    body.head? = some ("# " ++ project ++ " " ++ sprint ++ " report") := by
  constructor
  · unfold main_output
    rw [hok]
  · unfold print_jira_report at hok
    have hemp : issues.isEmpty = false := by
      cases issues with
      | nil => exact absurd rfl hne
      | cons a l => rfl
    rw [hemp] at hok
    dsimp only at hok
    cases hloop : reportLoop server ps an
        ("", "", ["# " ++ project ++ " " ++ sprint ++ " report"])
        (natsorted issues) with
    | error e => rw [hloop] at hok; cases hok
    | ok st =>
      rw [hloop] at hok
      obtain ⟨p, e, out⟩ := st
      dsimp only at hok
      cases hok
      obtain ⟨suf, hsuf⟩ := reportLoop_out hloop
      dsimp only at hsuf
      rw [hsuf, List.singleton_append]
      rfl

/-- C8 witness: the amended ordering at a concrete run. -/
theorem C8_amended_count_line_then_header_witness :
    main_output "S" (fun _ => "PT") "PRJ" "S2" [plainIssue] [] =
      .ok (found_line [plainIssue] ::
        ["# PRJ S2 report", " - [Done] Task : [K-8](S/browse/K-8) : Fix things"]) ∧
    (["# PRJ S2 report",
      " - [Done] Task : [K-8](S/browse/K-8) : Fix things"] : List String).head? =
      some ("# " ++ "PRJ" ++ " " ++ "S2" ++ " report") :=
  C8_amended_count_line_then_header "S" (fun _ => "PT") "PRJ" "S2" [plainIssue] []
    ["# PRJ S2 report", " - [Done] Task : [K-8](S/browse/K-8) : Fix things"]
    rfl (by decide)

/-- C9: `find_unique_assignee_names` neither reads nor writes the module's
global state, and two evaluations on the same input are equal: the
state-passing wrapper returns the same result for every ambient state and
leaves the state unchanged. -/
theorem C9_shorten_deterministic_and_stateless :
    (∀ (g g' : GlobalState) (issues : List JiraIssue) (cs : Bool),
      (find_unique_assignee_names_run g issues cs).1 =
        (find_unique_assignee_names_run g' issues cs).1) ∧
    (∀ (g : GlobalState) (issues : List JiraIssue) (cs : Bool),
      (find_unique_assignee_names_run g issues cs).2 = g) ∧
    (∀ (issues : List JiraIssue) (cs : Bool),
      find_unique_assignee_names issues cs = find_unique_assignee_names issues cs) :=
  ⟨fun _ _ _ _ => rfl, fun _ _ _ => rfl, fun _ _ => rfl⟩

/-- C10: with a falsy tracker client or an empty project key,
`find_issue_in_jira_sprint` returns an empty collection, performs no epic
resolution, and issues zero search requests. -/
theorem C10_guard_returns_empty_without_search (client : Option JiraClient)
    (project sprint : String) (h : client = none ∨ project = "") :
    find_issue_in_jira_sprint client project sprint = ([], [], 0) := by
  rcases h with h | h
  · rw [h]
    rfl
  · cases client with
    | none => rfl
    | some c =>
      unfold find_issue_in_jira_sprint
      dsimp only
      rw [if_pos h]

/-- C10 witness: the guard at a concrete falsy client. -/
theorem C10_guard_returns_empty_without_search_witness :
    find_issue_in_jira_sprint none "PRJ" "Sprint 1" = ([], [], 0) :=
  C10_guard_returns_empty_without_search none "PRJ" "Sprint 1" (Or.inl rfl)

end SprintReport
